import Mathlib

/-!
# Verification of the qsv-sniffer CSV dialect sniffer

A shallow embedding of the core inference pipeline of the `qsv-sniffer`
crate (sampler, preamble snipper, Markov chain / Viterbi core, type
guesser, quote/delimiter co-inference, header detection), together with
proofs settling the specification claims about it.

Conventions:
* bytes are modelled as `Nat` (values below 256);
* byte streams are `List Nat`;
* the `f64` probabilities of the Viterbi decoder are modelled as exact
  rationals `ℚ` (the decoded output is only compared, never printed, so
  the choice of numeric domain is observationally irrelevant for the
  properties proved here);
* fallible code returns `Option` or `Except String`; a Rust panic
  (out-of-bounds slice index) is modelled by a dedicated constructor.
-/

namespace QsvSniffer

/-- `SampleSize` from `sample.rs`: the bound on the sample the sniffer reads. -/
inductive SampleSize where
  | Records (n : Nat)
  | Bytes (n : Nat)
  | All
deriving DecidableEq, Repr

/-! ## Sampler (`sample.rs`)

`SampleIter::next` is modelled as a state-passing function over the
remaining byte stream.  UTF-8 lossy decoding is elided: for the byte
counts and budget logic under scrutiny only the raw byte lengths matter,
and the decoder is byte-identity on valid input (the `IS_UTF8` flag and
U+FFFD replacement play no role in the claims). -/

/-- The mutable state of `SampleIter` (`sample.rs`), plus the unread
remainder of the underlying stream. -/
structure SampleState where
  data : List Nat
  n_bytes : Nat
  n_records : Nat
  is_done : Bool
deriving DecidableEq, Repr

/-- `BufRead::read_until(b'\n')`: the bytes up to and including the first
newline (all remaining bytes when no newline occurs), and the rest. -/
def read_until (data : List Nat) : List Nat × List Nat :=
  let i := data.findIdx (fun b => b == 10)
  (data.take (i + 1), data.drop (i + 1))

/-- Is a byte a CR or LF? (the trim predicate of `SampleIter::next`). -/
def isCrLf (b : Nat) : Bool := b == 10 || b == 13

/-- `str::trim_matches` with the CR/LF predicate: strips the bytes
matching the predicate from both ends. -/
def trimCrLf (buf : List Nat) : List Nat :=
  ((buf.dropWhile isCrLf).reverse.dropWhile isCrLf).reverse

/-- One call of `SampleIter::next` (`sample.rs` lines 52-107): reads a
line, terminates on empty read or a truncated tail, strips CR/LF,
updates the raw-byte and record counters, and applies the sample-size
budget.  Returns the yielded record (if any) and the successor state. -/
def sample_next (sz : SampleSize) (st : SampleState) : Option (List Nat) × SampleState :=
  if st.is_done then (none, st)
  else
    let buf := (read_until st.data).1
    let rest := (read_until st.data).2
    let n_bytes_read := buf.length
    if n_bytes_read = 0 then (none, { st with is_done := true })
    else
      let last_byte := buf.getLastD 0
      if last_byte ≠ 10 ∧ last_byte ≠ 13 then
        (none, { st with data := rest, is_done := true })
      else
        let output := trimCrLf buf
        let n_bytes := st.n_bytes + n_bytes_read
        let n_records := st.n_records + 1
        let st1 : SampleState :=
          { data := rest, n_bytes := n_bytes, n_records := n_records, is_done := false }
        match sz with
        | SampleSize.Records max_records =>
            if n_records > max_records then (none, { st1 with is_done := true })
            else (some output, st1)
        | SampleSize.Bytes max_bytes =>
            if n_bytes > max_bytes then (none, { st1 with is_done := true })
            else (some output, st1)
        | SampleSize.All => (some output, st1)

/-! ## Preamble snipper (`snip.rs`) -/

/-- The repeated `memchr(b'\n', ..)` scan of `preamble_skipcount`: the
offset just past the `k`-th newline of `buf` starting from `pos`, if
`buf` holds that many newlines. -/
def crlfScan : Nat → List Nat → Nat → Option Nat
  | 0, _, pos => some pos
  | k + 1, buf, pos =>
    match (buf.drop pos).findIdx? (fun b => b == 10) with
    | some p => crlfScan k buf (pos + p + 1)
    | none => none

/-- The read loop of `preamble_skipcount` (`snip.rs` lines 14-38): read
up to 4096 bytes, look for `n_preamble_rows` newlines **within that
buffer**, accumulate either the found offset or the whole block length.
(Scanning the `take 4096` block is equivalent to scanning the source's
zero-initialised 4096-byte buffer, since a zero byte never matches the
newline search.)  A read of 0 bytes with no match loops forever in the
source; that divergence is modelled as `none`.  The `fuel` argument
only bounds the recursion; each source iteration consumes at least one
byte of `data`, so `fuel = data.length` never runs out before the
end-of-stream case. -/
def skipLoop : Nat → List Nat → Nat → Nat → Option Nat
  | 0, _, _, _ => none
  | fuel + 1, data, k, acc =>
    if data.isEmpty then none
    else
      match crlfScan k (data.take 4096) 0 with
      | some pos => some (acc + pos)
      | none => skipLoop fuel (data.drop 4096) k (acc + min 4096 data.length)

/-- `preamble_skipcount` (`snip.rs` lines 7-40). -/
def preamble_skipcount (data : List Nat) (n_preamble_rows : Nat) : Option Nat :=
  if n_preamble_rows = 0 then some 0
  else skipLoop data.length data n_preamble_rows 0

/-- `snip_preamble` (`snip.rs` lines 42-46): the absolute position the
stream is seeked to. -/
def snip_preamble (data : List Nat) (n_preamble_rows : Nat) : Option Nat :=
  preamble_skipcount data n_preamble_rows

/-- Modelled from the spec: the byte offset immediately after the `k`-th
newline of the stream, counted from the start — the seek target the
preamble-snipper contract promises. -/
def spec_offset_after_kth_newline (data : List Nat) (k : Nat) : Option Nat :=
  if k = 0 then some 0
  else crlfScan k data 0

/-! ## Type guesser (`field_type.rs`)

`TypeGuesses` is a `bitflags` struct over `u32`; it is modelled as a
`Nat` carrying the same bit patterns (all constructed values stay below
256, so no truncation arises).  The external parsers the guesser calls
(`str::parse::<u64>`, `::<i64>`, `::<f64>` and the `qsv-dateparser`
crate) live outside this repository; they enter the model as opaque
predicate parameters, while `infer_boolean` (defined in
`field_type.rs`) is embedded concretely. -/

/-- A `TypeGuesses` bitset (`field_type.rs` lines 17-31). -/
abbrev TypeGuesses := Nat

namespace TypeGuesses

def BOOLEAN : TypeGuesses := 1
def UNSIGNED : TypeGuesses := 2
def SIGNED : TypeGuesses := 4
def FLOAT : TypeGuesses := 8
def DATE : TypeGuesses := 16
def DATETIME : TypeGuesses := 32
def TEXT : TypeGuesses := 64
def NULL : TypeGuesses := 128

/-- `TypeGuesses::all()`: every flag set. -/
def all : TypeGuesses := 255

/-- `bitflags` `contains`: all bits of `f` are present in `g`. -/
def contains (g f : TypeGuesses) : Bool := g.land f == f

/-- `bitflags` set difference `self - other` (`self.bits & !other.bits`,
truncated to the known bits). -/
def diff (g f : TypeGuesses) : TypeGuesses := g.land (Nat.xor 255 (f.land 255))

/-- `TypeGuesses::allows` (`field_type.rs` lines 74-77):
`!(self - other).is_empty()`. -/
def allows (g f : TypeGuesses) : Bool := diff g f != 0

end TypeGuesses

/-- The `Type` enum of `field_type.rs` (named `Ty` here because `Type`
is a Lean keyword). -/
inductive Ty where
  | Unsigned
  | Signed
  | Text
  | Boolean
  | Float
  | Date
  | DateTime
  | NULL
deriving DecidableEq, Repr

/-- `TypeGuesses::best` (`field_type.rs` lines 37-69): the narrowest
type present in the bitset, checked in the source's branch order. -/
def TypeGuesses.best (g : TypeGuesses) : Ty :=
  if g.contains TypeGuesses.NULL then Ty.NULL
  else if g.contains TypeGuesses.BOOLEAN then Ty.Boolean
  else if g.contains TypeGuesses.UNSIGNED then Ty.Unsigned
  else if g.contains TypeGuesses.SIGNED then Ty.Signed
  else if g.contains TypeGuesses.FLOAT then Ty.Float
  else if g.contains TypeGuesses.DATETIME then Ty.DateTime
  else if g.contains TypeGuesses.DATE then Ty.Date
  else Ty.Text

/-- The external field parsers used by `infer_types`: `parse_u64`,
`parse_i64`, `parse_f64` model `str::parse`, and `parse_date` models
`qsv_dateparser::parse_with_preference` already specialised to the
ambient date preference (`some true` = the rendering ends in
`T00:00:00+00:00`, i.e. a plain date; `some false` = a date-time;
`none` = not a date). -/
structure Parsers where
  parse_u64 : String → Bool
  parse_i64 : String → Bool
  parse_f64 : String → Bool
  parse_date : String → Option Bool

/-- `infer_boolean` (`field_type.rs` lines 117-125): the lowercased
first five characters must be one of the ten boolean spellings. -/
def infer_boolean (s : String) : Bool :=
  let first5chars : List Char := s.toList.take 5
  let lower_s : String := String.mk (first5chars.map Char.toLower)
  lower_s == "0" || lower_s == "1" || lower_s == "t" || lower_s == "f" ||
    lower_s == "y" || lower_s == "n" || lower_s == "true" || lower_s == "false" ||
    lower_s == "yes" || lower_s == "no"

/-- `infer_types` on a single field (`field_type.rs` lines 79-115):
the empty field admits every type; a non-empty field always admits
`TEXT` plus every type whose parser accepts it. -/
def infer_types (P : Parsers) (s : String) : TypeGuesses :=
  if s.isEmpty then TypeGuesses.all
  else
    let g := TypeGuesses.TEXT
    let g := if P.parse_u64 s then g.lor TypeGuesses.UNSIGNED else g
    let g := if P.parse_i64 s then g.lor TypeGuesses.SIGNED else g
    let g := if infer_boolean s then g.lor TypeGuesses.BOOLEAN else g
    let g := if P.parse_f64 s then g.lor TypeGuesses.FLOAT else g
    match P.parse_date s with
    | some true => g.lor TypeGuesses.DATE
    | some false => g.lor TypeGuesses.DATETIME
    | none => g

/-- `infer_record_types` (`field_type.rs` lines 127-129). -/
def infer_record_types (P : Parsers) (record : List String) : List TypeGuesses :=
  record.map (infer_types P)

/-- `get_best_types` (`field_type.rs` lines 151-153). -/
def get_best_types (guesses : List TypeGuesses) : List Ty :=
  guesses.map TypeGuesses.best

/-! ## Type & header inference pass (`Sniffer::infer_types`, `sniffer.rs`)

The pass consumes records through a `csv`-crate reader (an external
collaborator); the model therefore takes the sequence of records the
reader yields, plus the record `Reader::byte_headers` would return
(the first row the reader read after the preamble), as parameters.
Each record is a list of (lossily decoded) field strings. -/

namespace Sniffer

/-- `count_bytes` (`sniffer.rs` lines 561-563): total byte length of the
fields of a record; `ByteRecord::as_slice().len()` (line 420) agrees
with it. -/
def count_bytes (record : List String) : Nat :=
  record.foldl (fun acc field => acc + field.utf8ByteSize) 0

/-- The indexed intersection loop body (`sniffer.rs` lines 415-418):
`row_types[i] &= infer_types(field)` for each field of the record, in
order.  The source indexes `row_types` without a bounds check, so a
record longer than `row_types` panics; that is the `none` case. -/
def intersectFields (P : Parsers) : List TypeGuesses → List String → Option (List TypeGuesses)
  | row_types, [] => some row_types
  | [], _ :: _ => none
  | rt :: row_types, field :: fields =>
    (intersectFields P row_types fields).map
      (fun rest => Nat.land rt (infer_types P field) :: rest)

/-- The record loop of `Sniffer::infer_types` (`sniffer.rs` lines
413-435): intersect each subsequent record into `row_types`, count
records and bytes, and stop once the sample budget is exceeded.
Returns `none` on the out-of-bounds panic of the intersection. -/
def inferLoop (P : Parsers) (sz : SampleSize) :
    List (List String) → List TypeGuesses → Nat → Nat →
    Option (List TypeGuesses × Nat × Nat)
  | [], row_types, n_records, n_bytes => some (row_types, n_records, n_bytes)
  | record :: records, row_types, n_records, n_bytes =>
    match intersectFields P row_types record with
    | none => none
    | some row_types1 =>
      let n_records1 := n_records + 1
      let n_bytes1 := n_bytes + count_bytes record
      match sz with
      | SampleSize.Records recs =>
          if n_records1 > recs then some (row_types1, n_records1, n_bytes1)
          else inferLoop P sz records row_types1 n_records1 n_bytes1
      | SampleSize.Bytes bytes =>
          if n_bytes1 > bytes then some (row_types1, n_records1, n_bytes1)
          else inferLoop P sz records row_types1 n_records1 n_bytes1
      | SampleSize.All => inferLoop P sz records row_types1 n_records1 n_bytes1

/-- The outputs `Sniffer::infer_types` deposits on the sniffer state. -/
structure InferTypesOk where
  has_header_row : Bool
  fields : List String
  types : List Ty
  avg_record_len : Nat
deriving DecidableEq, Repr

/-- The outcome of the pass: success, a `SniffingFailed` error, or the
out-of-bounds panic of the unchecked `row_types[i]` indexing. -/
inductive InferResult where
  | ok (r : InferTypesOk)
  | sniffError (msg : String)
  | outOfBounds
deriving DecidableEq, Repr

/-- `Sniffer::infer_types` (`sniffer.rs` lines 377-462), from the point
where the CSV reader yields records.  `header_record` is what
`byte_headers()` returns; `records` are the records the iterator
yields (rows after the preamble, minus the reader's header row when the
reader has headers enabled). -/
def infer_types_pass (P : Parsers) (sz : SampleSize) (field_count : Nat)
    (header_record : List String) (records : List (List String)) : InferResult :=
  match records with
  | [] => InferResult.sniffError "CSV empty (after preamble)"
  | r0 :: rest =>
    let header_row_types := infer_record_types P r0
    let n_records := 1
    let n_bytes := count_bytes r0
    match inferLoop P sz rest (List.replicate field_count TypeGuesses.all) n_records n_bytes with
    | none => InferResult.outOfBounds
    | some (row_types, n_records1, n_bytes1) =>
      if n_records1 = 1 then
        InferResult.ok
          { has_header_row := false, fields := [],
            types := get_best_types header_row_types, avg_record_len := n_bytes1 }
      else
        let has_header := (header_row_types.zip row_types).any
          (fun p => ! TypeGuesses.allows p.2 p.1)
        InferResult.ok
          { has_header_row := has_header,
            fields := if has_header then header_record else [],
            types := get_best_types row_types,
            avg_record_len := n_bytes1 / n_records1 }

/-- The slice of `Metadata` relevant to the structural invariants
(modelled from the spec's data model, §3, because the repository's
`metadata.rs` is an older variant missing the `fields` and
`avg_record_len` members referenced by `sniffer.rs`). -/
structure Metadata where
  num_fields : Nat
  fields : List String
  types : List Ty
  avg_record_len : Nat
  has_header_row : Bool
deriving DecidableEq, Repr

/-- The tail of `Sniffer::sniff_reader` (`sniffer.rs` lines 142-188)
restricted to the fields the claims constrain: run the type-inference
pass with `field_count = delimiter_freq + 1` (line 387) and assemble
`Metadata` with `num_fields = delimiter_freq + 1` (line 184). -/
def sniff_assemble (P : Parsers) (sz : SampleSize) (delimiter_freq : Nat)
    (header_record : List String) (records : List (List String)) :
    Except String Metadata :=
  match infer_types_pass P sz (delimiter_freq + 1) header_record records with
  | InferResult.ok r =>
      Except.ok
        { num_fields := delimiter_freq + 1, fields := r.fields, types := r.types,
          avg_record_len := r.avg_record_len, has_header_row := r.has_header_row }
  | InferResult.sniffError msg => Except.error msg
  | InferResult.outOfBounds => Except.error "panicked at index out of bounds"

end Sniffer

/-! ## Markov chain & Viterbi core (`chain.rs`)

The `f64` probabilities are modelled as exact rationals. -/

def N_STATES : Nat := 3
def STATE_STEADYSTRICT : Nat := 0
def STATE_STEADYFLEX : Nat := 1
def STATE_UNSTEADY : Nat := 2
def N_OBS : Nat := 3
def OBS_MAXVALUE : Nat := 0
def OBS_OTHER : Nat := 1
def OBS_ZERO : Nat := 2

/-- One Viterbi table cell (`VIteration` of `chain.rs`). -/
structure VIteration where
  prob : ℚ
  prev : Option Nat
deriving DecidableEq, Repr

/-- `ViterbiResults` of `chain.rs`. -/
structure ViterbiResults where
  max_delim_freq : Nat
  path : List (Nat × VIteration)
deriving DecidableEq, Repr

/-- A `Chain` is its observation sequence (`chain.rs` lines 13-16). -/
abbrev Chain := List Nat

/-- The initial transition matrix (`chain.rs` lines 50-54), row-major. -/
def transProbInit : List ℚ :=
  [1, 0, 0,
   0, 1, 0,
   1/5, 1/5, 3/5]

/-- `update_trans_prob` (`chain.rs` lines 55-66): drift the Unsteady row
by δ = 0.01 with clamping. -/
def update_trans_prob (tp : List ℚ) : List ℚ :=
  let delta : ℚ := 1/100
  let tp := tp.set (STATE_UNSTEADY * N_STATES + STATE_STEADYSTRICT)
    (max (tp.getD (STATE_UNSTEADY * N_STATES + STATE_STEADYSTRICT) 0 - delta) 0)
  let tp := tp.set (STATE_UNSTEADY * N_STATES + STATE_STEADYFLEX)
    (max (tp.getD (STATE_UNSTEADY * N_STATES + STATE_STEADYFLEX) 0 - delta) 0)
  tp.set (STATE_UNSTEADY * N_STATES + STATE_UNSTEADY)
    (min (tp.getD (STATE_UNSTEADY * N_STATES + STATE_UNSTEADY) 0 + 2 * delta) 1)

/-- The emission matrix (`chain.rs` lines 68-73), row-major, where
`u = 1/(max_value+1)`. -/
def emitProb (u : ℚ) : List ℚ :=
  [1, 0, 0,
   7/10, 3/10, 0,
   u, 1 - 2 * u, u]

/-- `map_observation` (`chain.rs` lines 75-83). -/
def map_observation (max_value freq : Nat) : Nat :=
  if freq = max_value then OBS_MAXVALUE
  else if freq = 0 then OBS_ZERO
  else OBS_OTHER

/-- The inner arg-max over predecessor states (`chain.rs` lines
100-110): the first state is always taken, then strictly greater
transition probabilities win, so ties prefer the lowest index. -/
def maxPrev (prevRow : List VIteration) (tp : List ℚ) (s : Nat) : Option Nat × ℚ :=
  (List.range N_STATES).foldl
    (fun acc p =>
      let tr_prob := (prevRow.getD p ⟨0, none⟩).prob * tp.getD (p * N_STATES + s) 0
      if acc.1.isNone || tr_prob > acc.2 then (some p, tr_prob) else acc)
    (none, 0)

/-- One timestep of the Viterbi table (`chain.rs` lines 98-120): push a
cell per state; the transition matrix drifts after **each state's**
update (the `update_trans_prob` call sits inside the state loop). -/
def viterbiStep (prevRow : List VIteration) (tp : List ℚ) (u : ℚ) (obsClass : Nat) :
    List VIteration × List ℚ :=
  (List.range N_STATES).foldl
    (fun (acc : List VIteration × List ℚ) s =>
      let mp := maxPrev prevRow acc.2 s
      (acc.1 ++ [⟨mp.2 * (emitProb u).getD (s * N_OBS + obsClass) 0, mp.1⟩],
       update_trans_prob acc.2))
    ([], tp)

/-- The full Viterbi table (`chain.rs` lines 85-122): row 0 is the
uniform initial distribution; each observation appends a row. -/
def viterbiIters (obs : List Nat) (max_value : Nat) : List (List VIteration) :=
  let row0 : List VIteration := [⟨1/3, none⟩, ⟨1/3, none⟩, ⟨1/3, none⟩]
  let u : ℚ := 1 / ((max_value : ℚ) + 1)
  (obs.foldl
    (fun (acc : List (List VIteration) × List ℚ) o =>
      let step := viterbiStep (acc.1.getLastD []) acc.2 u (map_observation max_value o)
      (acc.1 ++ [step.1], step.2))
    ([row0], transProbInit)).1

/-- The final-state selection fold (`chain.rs` lines 124-136): start at
`(0, none)`, take the first cell, then strictly greater probabilities
win (ties keep the lowest state index). -/
def finalSelect (row : List VIteration) : Nat × Option VIteration :=
  row.enum.foldl
    (fun acc p =>
      match acc.2 with
      | some max_viter => if p.2.prob > max_viter.prob then (p.1, some p.2) else acc
      | none => (p.1, some p.2))
    (0, none)

/-- The backtracking loop (`chain.rs` lines 137-144): starting from the
selected final cell, repeatedly follow `prev` through rows
`len-2, …, 0`, then reverse.  (The source `expect`s `prev` to be
present on every followed cell; a missing `prev` — unreachable for the
tables built above — leaves the path unchanged.) -/
def backtrack (iters : List (List VIteration)) (start : Nat × VIteration) :
    List (Nat × VIteration) :=
  let walk := (List.range (iters.length - 1)).reverse.foldl
    (fun (path : List (Nat × VIteration)) idx =>
      let prev_viter := (path.getLastD (0, ⟨0, none⟩)).2
      match prev_viter.prev with
      | some prev_state =>
          path ++ [(prev_state, (iters.getD idx []).getD prev_state ⟨0, none⟩)]
      | none => path)
    [start]
  walk.reverse

/-- `Chain::viterbi` (`chain.rs` lines 31-146). -/
def viterbi (observations : Chain) : ViterbiResults :=
  if observations.isEmpty then { max_delim_freq := 0, path := [] }
  else
    let max_value := observations.foldl Nat.max 0
    if max_value = 0 then
      { max_delim_freq := max_value,
        path := [(STATE_UNSTEADY, ⟨0, some STATE_UNSTEADY⟩)] }
    else
      let iters := viterbiIters observations max_value
      let sel := finalSelect (iters.getLastD [])
      match sel.2 with
      | some final_viter => { max_delim_freq := max_value, path := backtrack iters (sel.1, final_viter) }
      | none => { max_delim_freq := max_value, path := [] }

/-! ## Chain selection (`Sniffer::run_chains`, `sniffer.rs`) -/

namespace Sniffer

/-- The accumulator of the chain-selection fold:
`(best_delim, delim_freq, best_state, path, best_state_prob)`. -/
abbrev ChainsAcc := Nat × Nat × Nat × List (Nat × VIteration) × ℚ

/-- One step of the selection fold of `run_chains` (`sniffer.rs` lines
327-344): skip empty paths, and replace the accumulator when the
chain's final `(state, prob)` wins under `final_state < best_state`,
with ties broken by strictly higher probability. -/
def chainsFoldStep (acc : ChainsAcc) (p : Nat × Chain) : ChainsAcc :=
  let vr := viterbi p.2
  if vr.path.isEmpty then acc
  else
    let fin := vr.path.getLastD (0, ⟨0, none⟩)
    let best_state := acc.2.2.1
    let best_state_prob := acc.2.2.2.2
    if fin.1 < best_state ∨ (fin.1 = best_state ∧ fin.2.prob > best_state_prob) then
      (p.1, vr.max_delim_freq, fin.1, vr.path, fin.2.prob)
    else acc

/-- The selection fold of `run_chains` (`sniffer.rs` lines 325-345):
scan the chains in index order with `chainsFoldStep`, starting from
`(b',', 0, Unsteady, [], 0.0)`. -/
def chainsFold (chains : List Chain) : ChainsAcc :=
  chains.enum.foldl chainsFoldStep (44, 0, STATE_UNSTEADY, [], 0)

/-- The outputs `run_chains` deposits on the sniffer state. -/
structure RunChainsOk where
  delimiter : Nat
  delimiter_freq : Nat
  flexible : Bool
  num_preamble_rows : Nat
deriving DecidableEq, Repr

/-- `Sniffer::run_chains` (`sniffer.rs` lines 317-375): select the best
chain, fail unless its final state is steady, set the flexible flag,
derive the preamble length from the winning path (skip two entries,
count the run of states differing from the best state, add one when
non-zero), and keep a previously known delimiter if present. -/
def run_chains (prev_delimiter : Option Nat) (chains : List Chain) :
    Except String RunChainsOk :=
  let acc := chainsFold chains
  let best_delim := acc.1
  let delim_freq := acc.2.1
  let best_state := acc.2.2.1
  let path := acc.2.2.2.1
  if best_state = STATE_STEADYSTRICT ∨ best_state = STATE_STEADYFLEX then
    let flexible := best_state == STATE_STEADYFLEX
    let run := ((path.drop 2).takeWhile (fun q => q.1 != best_state)).length
    let num_preamble_rows := if run > 0 then run + 1 else run
    Except.ok
      { delimiter := prev_delimiter.getD best_delim, delimiter_freq := delim_freq,
        flexible := flexible, num_preamble_rows := num_preamble_rows }
  else Except.error "unable to find valid delimiter"

/-! ## Quote/delimiter co-inference (`quote_count`, `sniffer.rs`)

The regex machinery feeding `delim_count_map` is external (the `regex`
crate); the model starts from the resulting tally, given as an
association list in the (arbitrary) order a `HashMap` iterates it. -/

/-- The first byte of a string, `(delim.as_ref() as &[u8])[0]`.  It is
only consulted on strings whose UTF-8 length is exactly 1, where it is
the sole character's code point. -/
def strFirstByte (s : String) : Nat :=
  match s.toList with
  | [] => 0
  | c :: _ => c.toNat

/-- The modal-delimiter fold of `quote_count` (`sniffer.rs` lines
534-548): an entry whose key is not exactly one byte long **resets**
the accumulator to `(0, b'\0')`; a one-byte entry with a strictly
greater tally replaces it. -/
def modal_delim_fold (entries : List (String × Nat)) : Nat × Nat :=
  entries.foldl
    (fun acc e =>
      if e.1.utf8ByteSize ≠ 1 then (0, 0)
      else if e.2 > acc.1 then (e.2, strFirstByte e.1)
      else acc)
    (0, 0)

/-- The tail of `quote_count` after the match-counting loop
(`sniffer.rs` lines 524-558), in the case where no delimiter was
user-supplied: `count` is the total regex match count and `entries` the
captured-delimiter tally.  Returns `ok none` on zero matches, an
`invalid regex match` error when the fold ends at a zero tally, and the
`(count, modal byte)` pair otherwise. -/
def quote_count_tail (count : Nat) (entries : List (String × Nat)) :
    Except String (Option (Nat × Nat)) :=
  if count = 0 then Except.ok none
  else
    let fold := modal_delim_fold entries
    if fold.1 = 0 then Except.error "invalid regex match: no delimiter found"
    else Except.ok (some (count, fold.2))

end Sniffer

/-! ## Observables of the chain selection -/

/-- The final `(state, probability)` pair of a chain's Viterbi path,
when the path is non-empty. -/
def finalPairOf (c : Chain) : Option (Nat × ℚ) :=
  ((viterbi c).path.getLast?).map (fun q => (q.1, q.2.prob))

/-- The strict lexicographic "is a better candidate" order used by the
selection fold: a narrower (smaller) state wins, and on equal states a
strictly higher probability wins. -/
def lexBetter (x y : Nat × ℚ) : Prop :=
  x.1 < y.1 ∨ (x.1 = y.1 ∧ y.2 < x.2)

/-- The chosen best final state of the selection fold. -/
def bestState (chains : List Chain) : Nat := (Sniffer.chainsFold chains).2.2.1

/-- The chosen best final probability of the selection fold. -/
def bestProb (chains : List Chain) : ℚ := (Sniffer.chainsFold chains).2.2.2.2

/-- The winning Viterbi path kept by the selection fold. -/
def bestPath (chains : List Chain) : List (Nat × VIteration) :=
  (Sniffer.chainsFold chains).2.2.2.1

/-! ## Concrete instances used by witnesses and counterexamples -/

/-- A parser environment in which none of the external parsers accepts
anything (every field is plain text as far as `str::parse` and the date
parser are concerned). -/
def P0 : Parsers :=
  { parse_u64 := fun _ => false, parse_i64 := fun _ => false,
    parse_f64 := fun _ => false, parse_date := fun _ => none }

/-- A 4099-byte stream whose first and second newlines straddle the
4096-byte read boundary of the preamble snipper: 4095 letters, a
newline at offset 4095, a newline at offset 4096, a letter, a final
newline. -/
def snipBugData : List Nat := List.replicate 4095 97 ++ [10, 10, 97, 10]

end QsvSniffer

/-! # Theorems -/

namespace QsvSniffer

/-! ### Shared helper lemmas -/

theorem foldl_max_eq_zero (obs : List Nat) (h : ∀ o ∈ obs, o = 0) :
    obs.foldl Nat.max 0 = 0 := by
  induction obs with
  | nil => rfl
  | cons x xs ih =>
    have hx : x = 0 := h x (List.mem_cons_self x xs)
    have : ∀ o ∈ xs, o = 0 := fun o ho => h o (List.mem_cons_of_mem x ho)
    simpa [hx] using ih this

/-! ### C9: Viterbi edge cases -/

/-- C9: `Chain::viterbi` on an empty observation sequence returns
`max_delim_freq = 0` with an empty path, and on a non-empty all-zero
observation sequence returns `max_delim_freq = 0` with the single-entry
path `[(Unsteady, (prob 0, prev Unsteady))]`. -/
theorem c9_viterbi_edge_cases :
    viterbi [] = { max_delim_freq := 0, path := [] } ∧
    ∀ obs : Chain, obs ≠ [] → (∀ o ∈ obs, o = 0) →
      viterbi obs =
        { max_delim_freq := 0,
          path := [(STATE_UNSTEADY, ⟨0, some STATE_UNSTEADY⟩)] } := by
  refine ⟨rfl, fun obs hne hz => ?_⟩
  have hmax : obs.foldl Nat.max 0 = 0 := foldl_max_eq_zero obs hz
  have hempty : obs.isEmpty = false := by
    cases obs with
    | nil => exact absurd rfl hne
    | cons x xs => rfl
  simp [viterbi, hempty, hmax]

/-- C9 witness: the all-zero branch at the concrete observation `[0]`. -/
theorem c9_viterbi_edge_cases_witness :
    viterbi [0] =
      { max_delim_freq := 0,
        path := [(STATE_UNSTEADY, ⟨0, some STATE_UNSTEADY⟩)] } :=
  c9_viterbi_edge_cases.2 [0] (by decide) (by decide)

/-! ### C8: quote/delimiter co-inference failure on a multi-byte modal capture

The claim says a modal captured delimiter of length ≠ 1 raises
`SniffingFailed`.  The fold only **resets** its accumulator when it
meets a length-≠-1 entry (`sniffer.rs` lines 539-542, with the inline
comment promising the reset "will be picked up [by] the
delim_count == 0 check below"); a length-1 entry processed afterwards
repopulates the accumulator, so the function returns `Ok` even though
the modal capture is multi-byte. -/

/-- C8: with tally `[("€", 2), (",", 1)]` — modal capture `"€"` of UTF-8
length 3 ≠ 1, iterated in that (possible `HashMap`) order — the
`quote_count` tail returns `Ok` with the comma delimiter instead of
raising `SniffingFailed`. -/
theorem c8_modal_multibyte_no_error :
    Sniffer.quote_count_tail 3 [("€", 2), (",", 1)] =
        Except.ok (some (3, 44)) ∧
    "€".utf8ByteSize = 3 ∧ (1 : Nat) < 2 := by
  refine ⟨rfl, rfl, by decide⟩

/-! ### C5: sampler budget semantics -/

/-- C5 counterexample: a sampler state that has already emitted one
record (3 raw bytes) under `Bytes(4)` reads the next full record
`"cd\n"`, crosses the budget, and returns `none` on that very call —
the crossing record is discarded, not yielded, and termination is not
deferred to the next call.  The `Records(1)` budget behaves the same
way, and the first call (within budget) shows the record would
otherwise have been yielded. -/
theorem c5_crossing_record_dropped :
    (sample_next (SampleSize.Bytes 4) ⟨[99, 100, 10], 3, 1, false⟩).1 = none ∧
    (sample_next (SampleSize.Records 1) ⟨[99, 100, 10], 3, 1, false⟩).1 = none ∧
    (sample_next (SampleSize.Bytes 4) ⟨[97, 98, 10, 99, 100, 10], 0, 0, false⟩).1 =
      some [97, 98] := by
  refine ⟨by decide, by decide, by decide⟩

/-- C5 as amended: a call of `SampleIter::next` that reads a complete
record terminates **immediately** when the updated counter exceeds the
budget — under `Records(R)` when `n_records + 1 > R`, under `Bytes(B)`
when `n_bytes + n_bytes_read > B` (raw pre-strip bytes) — discarding
the record that crossed the budget; otherwise it yields the trimmed
record; under `All` it always yields. -/
theorem c5_budget_amended (st : SampleState) (R B : Nat)
    (h1 : st.is_done = false)
    (h2 : (read_until st.data).1 ≠ [])
    (h3 : isCrLf ((read_until st.data).1.getLastD 0) = true) :
    ((sample_next (SampleSize.Records R) st).1 =
        if st.n_records + 1 > R then none
        else some (trimCrLf (read_until st.data).1)) ∧
    ((sample_next (SampleSize.Records R) st).2.is_done = true ↔
        st.n_records + 1 > R) ∧
    ((sample_next (SampleSize.Bytes B) st).1 =
        if st.n_bytes + (read_until st.data).1.length > B then none
        else some (trimCrLf (read_until st.data).1)) ∧
    ((sample_next (SampleSize.Bytes B) st).2.is_done = true ↔
        st.n_bytes + (read_until st.data).1.length > B) ∧
    ((sample_next SampleSize.All st).1 = some (trimCrLf (read_until st.data).1)) := by
  have hlen : (read_until st.data).1.length ≠ 0 := by
    simpa using fun hc => h2 (List.length_eq_zero.mp hc)
  have hlast : ¬ ((read_until st.data).1.getLastD 0 ≠ 10 ∧
      (read_until st.data).1.getLastD 0 ≠ 13) := by
    intro hc
    rcases Bool.or_eq_true_iff.mp ((by simp [isCrLf] at h3 ⊢; exact h3) :
        ((read_until st.data).1.getLastD 0 == 10) ||
          ((read_until st.data).1.getLastD 0 == 13) = true) with h | h
    · exact hc.1 (by simpa using h)
    · exact hc.2 (by simpa using h)
  refine ⟨?_, ?_, ?_, ?_, ?_⟩ <;>
    (simp only [sample_next, h1, Bool.false_eq_true, if_false, hlen, hlast,
        ite_false, ite_true, eq_self_iff_true, not_false_iff] <;>
      (try split) <;> simp_all)

/-- C5 witness for the amended statement: the first record of the
stream `"ab\ncd\n"` under each budget kind. -/
theorem c5_budget_amended_witness :
    ((sample_next (SampleSize.Records 1) ⟨[97, 98, 10, 99, 100, 10], 0, 0, false⟩).1 =
        if 0 + 1 > 1 then none
        else some (trimCrLf (read_until [97, 98, 10, 99, 100, 10]).1)) ∧
    ((sample_next (SampleSize.Records 1) ⟨[97, 98, 10, 99, 100, 10], 0, 0, false⟩).2.is_done = true ↔
        0 + 1 > 1) ∧
    ((sample_next (SampleSize.Bytes 4) ⟨[97, 98, 10, 99, 100, 10], 0, 0, false⟩).1 =
        if 0 + (read_until [97, 98, 10, 99, 100, 10]).1.length > 4 then none
        else some (trimCrLf (read_until [97, 98, 10, 99, 100, 10]).1)) ∧
    ((sample_next (SampleSize.Bytes 4) ⟨[97, 98, 10, 99, 100, 10], 0, 0, false⟩).2.is_done = true ↔
        0 + (read_until [97, 98, 10, 99, 100, 10]).1.length > 4) ∧
    ((sample_next SampleSize.All ⟨[97, 98, 10, 99, 100, 10], 0, 0, false⟩).1 =
        some (trimCrLf (read_until [97, 98, 10, 99, 100, 10]).1)) :=
  c5_budget_amended ⟨[97, 98, 10, 99, 100, 10], 0, 0, false⟩ 1 4
    (by decide) (by decide) (by decide)

/-! ### C7: NULL column type iff every observed field is empty -/

theorem foldl_land_le_init (l : List Nat) (a : Nat) : l.foldl Nat.land a ≤ a := by
  induction l generalizing a with
  | nil => exact Nat.le_refl a
  | cons x xs ih => exact Nat.le_trans (ih (Nat.land a x)) (Nat.and_le_left)

theorem foldl_land_le_mem (l : List Nat) (a x : Nat) (hx : x ∈ l) :
    l.foldl Nat.land a ≤ x := by
  induction l generalizing a with
  | nil => cases hx
  | cons y ys ih =>
    rcases List.mem_cons.mp hx with h | h
    · subst h
      exact Nat.le_trans (foldl_land_le_init ys (Nat.land a x)) Nat.and_le_right
    · exact ih (Nat.land a y) h

theorem foldl_land_all_255 (l : List Nat) (h : ∀ x ∈ l, x = 255) :
    l.foldl Nat.land 255 = 255 := by
  induction l with
  | nil => rfl
  | cons x xs ih =>
    have hx : x = 255 := h x (List.mem_cons_self x xs)
    have : ∀ y ∈ xs, y = 255 := fun y hy => h y (List.mem_cons_of_mem x hy)
    simpa [hx] using ih this

/-- A non-empty field admits neither the NULL bit nor the full bitset:
its guess always stays below 128. -/
theorem infer_types_nonempty_lt (P : Parsers) (s : String) (h : s.isEmpty = false) :
    infer_types P s < 128 := by
  cases h1 : P.parse_u64 s <;> cases h2 : P.parse_i64 s <;>
    cases h3 : infer_boolean s <;> cases h4 : P.parse_f64 s <;>
    rcases h5 : P.parse_date s with _ | b
  all_goals
    first
    | (simp only [infer_types, h, h1, h2, h3, h4, h5, Bool.false_eq_true, if_false,
        if_true, Bool.true_eq_false]
       decide)
    | (cases b <;>
        (simp only [infer_types, h, h1, h2, h3, h4, h5, Bool.false_eq_true, if_false,
          if_true, Bool.true_eq_false]
         decide))

/-- The empty field admits every type. -/
theorem infer_types_empty (P : Parsers) (s : String) (h : s.isEmpty = true) :
    infer_types P s = TypeGuesses.all := by
  simp [infer_types, h]

/-- `best` answers NULL exactly when the NULL bit is present. -/
theorem best_eq_null_iff (g : TypeGuesses) :
    TypeGuesses.best g = Ty.NULL ↔ TypeGuesses.contains g TypeGuesses.NULL = true := by
  unfold TypeGuesses.best
  split
  · simp_all
  · split <;> [skip; split <;> [skip; split <;> [skip; split <;>
      [skip; split <;> [skip; split]]]]] <;> simp_all

/-- C7: over any column of observed fields, the reported best type is
NULL iff the intersected `TypeGuesses` bitset equals the all-bits
value, which holds iff every observed field is the empty string; an
empty field yields all bits set and a non-empty field never sets the
NULL bit. -/
theorem c7_null_iff_all_empty (P : Parsers) (fields : List String) :
    (TypeGuesses.best ((fields.map (infer_types P)).foldl Nat.land TypeGuesses.all)
        = Ty.NULL ↔
      (fields.map (infer_types P)).foldl Nat.land TypeGuesses.all = TypeGuesses.all) ∧
    ((fields.map (infer_types P)).foldl Nat.land TypeGuesses.all = TypeGuesses.all ↔
      ∀ s ∈ fields, s = "") ∧
    (∀ s : String, s = "" → infer_types P s = TypeGuesses.all) ∧
    (∀ s : String, s ≠ "" →
      TypeGuesses.contains (infer_types P s) TypeGuesses.NULL = false) := by
  have hbelow : ∀ s : String, s ≠ "" → infer_types P s < 128 := by
    intro s hs
    refine infer_types_nonempty_lt P s ?_
    cases he : s.isEmpty
    · rfl
    · refine absurd ?_ hs
      cases s with
      | mk data =>
        cases data with
        | nil => rfl
        | cons c cs =>
          exfalso
          simp only [String.isEmpty, String.endPos, beq_iff_eq] at he
          have hz : String.utf8Len (c :: cs) = 0 := congrArg String.Pos.byteIdx he
          have hz2 : String.utf8Len cs + c.utf8Size = 0 := hz
          have hc := Char.utf8Size_pos c
          omega
  have hallempty : (∀ s ∈ fields, s = "") →
      (fields.map (infer_types P)).foldl Nat.land TypeGuesses.all = TypeGuesses.all := by
    intro h
    refine foldl_land_all_255 _ ?_
    intro x hx
    rcases List.mem_map.mp hx with ⟨s, hs, rfl⟩
    have : s = "" := h s hs
    subst this
    rfl
  have hcontains : TypeGuesses.contains
        ((fields.map (infer_types P)).foldl Nat.land TypeGuesses.all)
        TypeGuesses.NULL = true →
      ∀ s ∈ fields, s = "" := by
    intro hc s hs
    by_contra hne
    have hlt : infer_types P s < 128 := hbelow s hne
    have hmem : infer_types P s ∈ fields.map (infer_types P) :=
      List.mem_map.mpr ⟨s, hs, rfl⟩
    have hle : (fields.map (infer_types P)).foldl Nat.land TypeGuesses.all ≤
        infer_types P s := foldl_land_le_mem _ _ _ hmem
    have h128 : Nat.land ((fields.map (infer_types P)).foldl Nat.land TypeGuesses.all)
        128 = 128 := by
      simp only [TypeGuesses.contains, TypeGuesses.NULL, beq_iff_eq] at hc
      exact hc
    have h128le : (128 : Nat) ≤ (fields.map (infer_types P)).foldl Nat.land TypeGuesses.all := by
      calc (128 : Nat) = Nat.land _ 128 := h128.symm
        _ ≤ _ := Nat.and_le_left
    exact absurd (Nat.lt_of_le_of_lt (Nat.le_trans h128le hle) hlt) (Nat.lt_irrefl 128)
  refine ⟨?_, ⟨?_, hallempty⟩, ?_, ?_⟩
  · rw [best_eq_null_iff]
    constructor
    · intro hc
      exact hallempty (hcontains hc)
    · intro hg
      rw [hg]
      rfl
  · intro hg
    refine hcontains ?_
    rw [hg]
    rfl
  · intro s hs
    subst hs
    rfl
  · intro s hs
    have hlt := hbelow s hs
    have hland : Nat.land (infer_types P s) 128 ≤ infer_types P s := Nat.and_le_left
    simp only [TypeGuesses.contains, TypeGuesses.NULL]
    cases hb : (Nat.land (infer_types P s) 128 == 128)
    · rfl
    · exfalso
      have heq : Nat.land (infer_types P s) 128 = 128 := beq_iff_eq.mp hb
      rw [heq] at hland
      exact absurd (Nat.lt_of_le_of_lt hland hlt) (Nat.lt_irrefl 128)

/-- C7 witness: inner hypotheses discharged on the empty and a
non-empty concrete field. -/
theorem c7_null_iff_all_empty_witness :
    infer_types P0 "" = TypeGuesses.all ∧
    TypeGuesses.contains (infer_types P0 "x") TypeGuesses.NULL = false :=
  ⟨(c7_null_iff_all_empty P0 []).2.2.1 "" rfl,
   (c7_null_iff_all_empty P0 []).2.2.2 "x" (by decide)⟩

/-! ### C4: the preamble snipper mis-seeks across the 4096-byte read boundary

`preamble_skipcount` restarts its newline count from zero in every
4096-byte block (`snip.rs` lines 14-38 re-scan each fresh buffer for
all `n_preamble_rows` newlines), so when the `k`-th newline falls
outside the block holding the earlier ones, the seek target is wrong.
On `snipBugData` (newlines at offsets 4095, 4096 and 4098) snipping 2
rows must seek to 4097, but the code seeks to 4099 — right past the
third newline, silently swallowing a data row. -/

theorem findIdx10_replicate (n : Nat) (rest : List Nat) (i : Nat) :
    List.findIdx? (fun b => b == 10) (List.replicate n 97 ++ rest) i =
      List.findIdx? (fun b => b == 10) rest (n + i) := by
  induction n generalizing i with
  | zero => simp
  | succ n ih =>
    rw [List.replicate_succ, List.cons_append, List.findIdx?_cons]
    have h97 : ((97 : Nat) == 10) = false := rfl
    rw [h97]
    simp only [Bool.false_eq_true, if_false]
    rw [ih (i + 1)]
    have : n + (i + 1) = n + 1 + i := by omega
    rw [this]

theorem snipBugData_take : snipBugData.take 4096 = List.replicate 4095 97 ++ [10] := by
  unfold snipBugData
  rw [List.take_append_eq_append_take,
    List.take_of_length_le (by rw [List.length_replicate]; omega),
    List.length_replicate]
  rfl

theorem snipBugData_drop : snipBugData.drop 4096 = [10, 97, 10] := by
  unfold snipBugData
  rw [List.drop_append_eq_append_drop,
    List.drop_eq_nil_of_le (by rw [List.length_replicate]; omega),
    List.length_replicate]
  rfl

theorem snipBugData_length : snipBugData.length = 4099 := by
  unfold snipBugData
  rw [List.length_append, List.length_replicate]
  rfl

theorem snipBugData_ne_nil : snipBugData ≠ [] := by
  intro h
  have := congrArg List.length h
  rw [snipBugData_length] at this
  simp at this

theorem crlfScan_first_block :
    crlfScan 2 (List.replicate 4095 97 ++ [10]) 0 = none := by
  have h1 : List.findIdx? (fun b => b == 10) (List.replicate 4095 97 ++ [10]) 0 =
      some 4095 := by
    rw [findIdx10_replicate]
    rfl
  have h2 : (List.replicate 4095 97 ++ [10]).drop 4096 = [] := by
    refine List.drop_eq_nil_of_le ?_
    rw [List.length_append, List.length_replicate]
    decide
  simp only [crlfScan, List.drop_zero, h1, h2, List.findIdx?_nil]

theorem crlfScan_spec_side : crlfScan 2 snipBugData 0 = some 4097 := by
  have h1 : List.findIdx? (fun b => b == 10) snipBugData 0 = some 4095 := by
    unfold snipBugData
    rw [findIdx10_replicate]
    rfl
  have h2 : snipBugData.drop 4096 = [10, 97, 10] := snipBugData_drop
  simp only [crlfScan, List.drop_zero, h1, h2, List.findIdx?_cons]
  rfl

theorem skipLoop_succ (fuel : Nat) (data : List Nat) (k acc : Nat) :
    skipLoop (fuel + 1) data k acc =
      if data.isEmpty then none
      else
        match crlfScan k (data.take 4096) 0 with
        | some pos => some (acc + pos)
        | none => skipLoop fuel (data.drop 4096) k (acc + min 4096 data.length) := rfl

/-- C4: on a stream with at least two newlines, `snip_preamble 2` seeks
to offset 4099 although the offset immediately after the second newline
is 4097 — the snipper does not advance past exactly `k` line
terminators once they straddle its 4096-byte read blocks. -/
theorem c4_snip_preamble_wrong_offset :
    snip_preamble snipBugData 2 = some 4099 ∧
    spec_offset_after_kth_newline snipBugData 2 = some 4097 ∧
    2 ≤ snipBugData.count 10 ∧ (4099 : Nat) ≠ 4097 := by
  refine ⟨?_, ?_, ?_, by decide⟩
  · show preamble_skipcount snipBugData 2 = some 4099
    unfold preamble_skipcount
    rw [if_neg (by omega), snipBugData_length]
    rw [show (4099 : Nat) = 4098 + 1 from rfl]
    rw [skipLoop_succ]
    rw [if_neg (by simp only [List.isEmpty_iff]; exact snipBugData_ne_nil)]
    rw [snipBugData_take, crlfScan_first_block]
    rw [snipBugData_drop, snipBugData_length]
    rfl
  · unfold spec_offset_after_kth_newline
    rw [if_neg (by omega)]
    exact crlfScan_spec_side
  · unfold snipBugData
    rw [List.count_append, List.count_replicate]
    simp

/-! ### Lemmas on the type-inference loop (shared by C1, C3, C10) -/

namespace Sniffer

theorem intersectFields_isSome (P : Parsers) (row_types : List TypeGuesses)
    (fields : List String) (h : fields.length ≤ row_types.length) :
    (intersectFields P row_types fields).isSome = true := by
  induction fields generalizing row_types with
  | nil => cases row_types <;> rfl
  | cons f fs ih =>
    cases row_types with
    | nil => simp at h
    | cons rt rts =>
      have hlen : fs.length ≤ rts.length := by
        simp only [List.length_cons] at h
        omega
      have htail := ih rts hlen
      cases hi : intersectFields P rts fs with
      | none => rw [hi] at htail; simp at htail
      | some out => simp [intersectFields, hi]

theorem intersectFields_length (P : Parsers) (row_types out : List TypeGuesses)
    (fields : List String) (h : intersectFields P row_types fields = some out) :
    out.length = row_types.length := by
  induction fields generalizing row_types out with
  | nil =>
    have he : intersectFields P row_types [] = some row_types := by
      cases row_types <;> rfl
    rw [he] at h
    cases h
    rfl
  | cons f fs ih =>
    cases row_types with
    | nil => simp only [intersectFields] at h; cases h
    | cons rt rts =>
      simp only [intersectFields] at h
      cases hi : intersectFields P rts fs with
      | none => rw [hi] at h; simp at h
      | some out1 =>
        rw [hi] at h
        have h2 : some (Nat.land rt (infer_types P f) :: out1) = some out := h
        cases h2
        simp only [List.length_cons, ih rts out1 hi]

/-- Step equation: the loop on a record the intersection rejects. -/
theorem inferLoop_cons_none (P : Parsers) (sz : SampleSize) (rec : List String)
    (recs : List (List String)) (row_types : List TypeGuesses) (n nb : Nat)
    (hi : intersectFields P row_types rec = none) :
    inferLoop P sz (rec :: recs) row_types n nb = none := by
  cases sz <;> simp [inferLoop, hi]

/-- Step equation: the loop on an accepted record, `Records` budget. -/
theorem inferLoop_cons_records (P : Parsers) (R : Nat) (rec : List String)
    (recs : List (List String)) (row_types rts1 : List TypeGuesses) (n nb : Nat)
    (hi : intersectFields P row_types rec = some rts1) :
    inferLoop P (SampleSize.Records R) (rec :: recs) row_types n nb =
      if n + 1 > R then some (rts1, n + 1, nb + count_bytes rec)
      else inferLoop P (SampleSize.Records R) recs rts1 (n + 1) (nb + count_bytes rec) := by
  simp [inferLoop, hi]

/-- Step equation: the loop on an accepted record, `Bytes` budget. -/
theorem inferLoop_cons_bytes (P : Parsers) (B : Nat) (rec : List String)
    (recs : List (List String)) (row_types rts1 : List TypeGuesses) (n nb : Nat)
    (hi : intersectFields P row_types rec = some rts1) :
    inferLoop P (SampleSize.Bytes B) (rec :: recs) row_types n nb =
      if nb + count_bytes rec > B then some (rts1, n + 1, nb + count_bytes rec)
      else inferLoop P (SampleSize.Bytes B) recs rts1 (n + 1) (nb + count_bytes rec) := by
  simp [inferLoop, hi]

/-- Step equation: the loop on an accepted record, unboundend sample. -/
theorem inferLoop_cons_all (P : Parsers) (rec : List String)
    (recs : List (List String)) (row_types rts1 : List TypeGuesses) (n nb : Nat)
    (hi : intersectFields P row_types rec = some rts1) :
    inferLoop P SampleSize.All (rec :: recs) row_types n nb =
      inferLoop P SampleSize.All recs rts1 (n + 1) (nb + count_bytes rec) := by
  simp [inferLoop, hi]

theorem inferLoop_records_mono (P : Parsers) (sz : SampleSize)
    (records : List (List String)) (row_types out_types : List TypeGuesses)
    (n_records n_bytes n_records1 n_bytes1 : Nat)
    (h : inferLoop P sz records row_types n_records n_bytes =
      some (out_types, n_records1, n_bytes1)) :
    n_records ≤ n_records1 := by
  induction records generalizing row_types n_records n_bytes with
  | nil =>
    simp only [inferLoop] at h
    cases h
    exact Nat.le_refl _
  | cons rec recs ih =>
    cases hi : intersectFields P row_types rec with
    | none => rw [inferLoop_cons_none P sz rec recs row_types _ _ hi] at h; cases h
    | some rts1 =>
      cases sz with
      | Records R =>
        rw [inferLoop_cons_records P R rec recs row_types rts1 _ _ hi] at h
        by_cases hb : n_records + 1 > R
        · rw [if_pos hb] at h
          cases h
          exact Nat.le_succ _
        · rw [if_neg hb] at h
          exact Nat.le_trans (Nat.le_succ _) (ih rts1 (n_records + 1) _ h)
      | Bytes B =>
        rw [inferLoop_cons_bytes P B rec recs row_types rts1 _ _ hi] at h
        by_cases hb : n_bytes + count_bytes rec > B
        · rw [if_pos hb] at h
          cases h
          exact Nat.le_succ _
        · rw [if_neg hb] at h
          exact Nat.le_trans (Nat.le_succ _) (ih rts1 (n_records + 1) _ h)
      | All =>
        rw [inferLoop_cons_all P rec recs row_types rts1 _ _ hi] at h
        exact Nat.le_trans (Nat.le_succ _) (ih rts1 (n_records + 1) _ h)

theorem inferLoop_length (P : Parsers) (sz : SampleSize)
    (records : List (List String)) (row_types out_types : List TypeGuesses)
    (n_records n_bytes n_records1 n_bytes1 : Nat)
    (h : inferLoop P sz records row_types n_records n_bytes =
      some (out_types, n_records1, n_bytes1)) :
    out_types.length = row_types.length := by
  induction records generalizing row_types n_records n_bytes with
  | nil =>
    simp only [inferLoop] at h
    cases h
    rfl
  | cons rec recs ih =>
    cases hi : intersectFields P row_types rec with
    | none => rw [inferLoop_cons_none P sz rec recs row_types _ _ hi] at h; cases h
    | some rts1 =>
      have hlen := intersectFields_length P row_types rts1 rec hi
      cases sz with
      | Records R =>
        rw [inferLoop_cons_records P R rec recs row_types rts1 _ _ hi] at h
        by_cases hb : n_records + 1 > R
        · rw [if_pos hb] at h
          cases h
          exact hlen
        · rw [if_neg hb] at h
          rw [ih rts1 (n_records + 1) _ h, hlen]
      | Bytes B =>
        rw [inferLoop_cons_bytes P B rec recs row_types rts1 _ _ hi] at h
        by_cases hb : n_bytes + count_bytes rec > B
        · rw [if_pos hb] at h
          cases h
          exact hlen
        · rw [if_neg hb] at h
          rw [ih rts1 (n_records + 1) _ h, hlen]
      | All =>
        rw [inferLoop_cons_all P rec recs row_types rts1 _ _ hi] at h
        rw [ih rts1 (n_records + 1) _ h, hlen]

theorem inferLoop_isSome (P : Parsers) (sz : SampleSize)
    (records : List (List String)) (row_types : List TypeGuesses)
    (n_records n_bytes : Nat)
    (h : ∀ rec ∈ records, rec.length ≤ row_types.length) :
    (inferLoop P sz records row_types n_records n_bytes).isSome = true := by
  induction records generalizing row_types n_records n_bytes with
  | nil => rfl
  | cons rec recs ih =>
    have hrec : rec.length ≤ row_types.length :=
      h rec (List.mem_cons_self rec recs)
    have hs := intersectFields_isSome P row_types rec hrec
    cases hi : intersectFields P row_types rec with
    | none => rw [hi] at hs; simp at hs
    | some rts1 =>
      have hlen := intersectFields_length P row_types rts1 rec hi
      have htail : ∀ r ∈ recs, r.length ≤ rts1.length := by
        intro r hr
        rw [hlen]
        exact h r (List.mem_cons_of_mem rec hr)
      cases sz with
      | Records R =>
        rw [inferLoop_cons_records P R rec recs row_types rts1 _ _ hi]
        by_cases hb : n_records + 1 > R
        · rw [if_pos hb]; rfl
        · rw [if_neg hb]
          exact ih rts1 (n_records + 1) (n_bytes + count_bytes rec) htail
      | Bytes B =>
        rw [inferLoop_cons_bytes P B rec recs row_types rts1 _ _ hi]
        by_cases hb : n_bytes + count_bytes rec > B
        · rw [if_pos hb]; rfl
        · rw [if_neg hb]
          exact ih rts1 (n_records + 1) (n_bytes + count_bytes rec) htail
      | All =>
        rw [inferLoop_cons_all P rec recs row_types rts1 _ _ hi]
        exact ih rts1 (n_records + 1) (n_bytes + count_bytes rec) htail

theorem inferLoop_records_ge_succ (P : Parsers) (sz : SampleSize)
    (rec : List String) (recs : List (List String))
    (row_types out_types : List TypeGuesses)
    (n_records n_bytes n_records1 n_bytes1 : Nat)
    (h : inferLoop P sz (rec :: recs) row_types n_records n_bytes =
      some (out_types, n_records1, n_bytes1)) :
    n_records + 1 ≤ n_records1 := by
  cases hi : intersectFields P row_types rec with
  | none => rw [inferLoop_cons_none P sz rec recs row_types _ _ hi] at h; cases h
  | some rts1 =>
    cases sz with
    | Records R =>
      rw [inferLoop_cons_records P R rec recs row_types rts1 _ _ hi] at h
      by_cases hb : n_records + 1 > R
      · rw [if_pos hb] at h
        cases h
        exact Nat.le_refl _
      · rw [if_neg hb] at h
        exact inferLoop_records_mono P _ recs rts1 out_types _ _ _ _ h
    | Bytes B =>
      rw [inferLoop_cons_bytes P B rec recs row_types rts1 _ _ hi] at h
      by_cases hb : n_bytes + count_bytes rec > B
      · rw [if_pos hb] at h
        cases h
        exact Nat.le_refl _
      · rw [if_neg hb] at h
        exact inferLoop_records_mono P _ recs rts1 out_types _ _ _ _ h
    | All =>
      rw [inferLoop_cons_all P rec recs row_types rts1 _ _ hi] at h
      exact inferLoop_records_mono P _ recs rts1 out_types _ _ _ _ h

end Sniffer

theorem zip_any_get_iff {α β : Type} (l1 : List α) (l2 : List β) (f : α × β → Bool) :
    (l1.zip l2).any f = true ↔
      ∃ i, ∃ h1 : i < l1.length, ∃ h2 : i < l2.length,
        f (l1.get ⟨i, h1⟩, l2.get ⟨i, h2⟩) = true := by
  rw [List.any_eq_true]
  constructor
  · rintro ⟨x, hx, hfx⟩
    obtain ⟨⟨i, hi⟩, hget⟩ := List.mem_iff_get.mp hx
    have hi2 := hi
    rw [List.length_zip] at hi2
    have h1 : i < l1.length := lt_of_lt_of_le hi2 (min_le_left _ _)
    have h2 : i < l2.length := lt_of_lt_of_le hi2 (min_le_right _ _)
    refine ⟨i, h1, h2, ?_⟩
    have hz : (l1.zip l2).get ⟨i, hi⟩ = (l1.get ⟨i, h1⟩, l2.get ⟨i, h2⟩) := by
      simp [List.get_eq_getElem, List.getElem_zip]
    rw [hz] at hget
    rw [← hget] at hfx
    exact hfx
  · rintro ⟨i, h1, h2, hf⟩
    have hz : i < (l1.zip l2).length := by
      rw [List.length_zip]
      exact lt_min h1 h2
    refine ⟨(l1.zip l2).get ⟨i, hz⟩, List.get_mem _ _ _, ?_⟩
    have hg : (l1.zip l2).get ⟨i, hz⟩ = (l1.get ⟨i, h1⟩, l2.get ⟨i, h2⟩) := by
      simp [List.get_eq_getElem, List.getElem_zip]
    rw [hg]
    exact hf

/-! ### C1: header detection formula of the type-inference pass -/

/-- C1: when the pass has sampled at least two records, `has_header_row`
is set exactly when some column index `i` (within both the header row's
and the data columns' range) satisfies
`not row_types[i].allows(header_row_types[i])`; when set, the header
record's field names are captured into `fields`, otherwise `fields` is
left empty. -/
theorem c1_header_detection (P : Parsers) (sz : SampleSize) (fc : Nat)
    (header_record r0 : List String) (rest : List (List String))
    (row_types : List TypeGuesses) (n_records1 n_bytes1 : Nat)
    (r : Sniffer.InferTypesOk)
    (hloop : Sniffer.inferLoop P sz rest (List.replicate fc TypeGuesses.all) 1
        (Sniffer.count_bytes r0) = some (row_types, n_records1, n_bytes1))
    (hrest : rest ≠ [])
    (hr : Sniffer.infer_types_pass P sz fc header_record (r0 :: rest) =
      Sniffer.InferResult.ok r) :
    2 ≤ n_records1 ∧
    (r.has_header_row = true ↔
      ∃ i, ∃ hh : i < (infer_record_types P r0).length,
        ∃ hd : i < row_types.length,
        TypeGuesses.allows (row_types.get ⟨i, hd⟩)
          ((infer_record_types P r0).get ⟨i, hh⟩) = false) ∧
    (r.has_header_row = true → r.fields = header_record) ∧
    (r.has_header_row = false → r.fields = []) := by
  obtain ⟨x, xs, rfl⟩ : ∃ x xs, rest = x :: xs := by
    cases rest with
    | nil => exact absurd rfl hrest
    | cons x xs => exact ⟨x, xs, rfl⟩
  have h2 : 2 ≤ n_records1 :=
    Sniffer.inferLoop_records_ge_succ P sz x xs _ row_types 1 _ n_records1 n_bytes1 hloop
  simp only [Sniffer.infer_types_pass, hloop] at hr
  rw [if_neg (by omega : ¬ n_records1 = 1)] at hr
  cases hr
  refine ⟨h2, ?_, ?_, ?_⟩
  · simp only
    rw [zip_any_get_iff]
    constructor
    · rintro ⟨i, hh, hd, hf⟩
      refine ⟨i, hh, hd, ?_⟩
      simpa using hf
    · rintro ⟨i, hh, hd, hf⟩
      refine ⟨i, hh, hd, ?_⟩
      simpa using hf
  · intro hh
    simp only at hh ⊢
    rw [hh]
    rfl
  · intro hh
    simp only at hh ⊢
    rw [hh]
    rfl

/-- C1 witness: a two-record sample (`["a"]` then `["1"]`) where the
data row allows the header row's guesses, so no header is detected and
`fields` stays empty. -/
theorem c1_header_detection_witness :
    2 ≤ 2 ∧
    (((⟨false, [], [Ty.Boolean], 1⟩ : Sniffer.InferTypesOk).has_header_row = true) ↔
      ∃ i, ∃ hh : i < (infer_record_types P0 ["a"]).length,
        ∃ hd : i < ([65] : List TypeGuesses).length,
        TypeGuesses.allows (([65] : List TypeGuesses).get ⟨i, hd⟩)
          ((infer_record_types P0 ["a"]).get ⟨i, hh⟩) = false) ∧
    ((⟨false, [], [Ty.Boolean], 1⟩ : Sniffer.InferTypesOk).has_header_row = true →
      (⟨false, [], [Ty.Boolean], 1⟩ : Sniffer.InferTypesOk).fields = ["h"]) ∧
    ((⟨false, [], [Ty.Boolean], 1⟩ : Sniffer.InferTypesOk).has_header_row = false →
      (⟨false, [], [Ty.Boolean], 1⟩ : Sniffer.InferTypesOk).fields = []) :=
  c1_header_detection P0 (SampleSize.Bytes 16384) 1 ["h"] ["a"] [["1"]]
    [65] 2 2 ⟨false, [], [Ty.Boolean], 1⟩ rfl (by decide) rfl

/-! ### C3: the Metadata length invariants -/

/-- C3 counterexample: a successful run of the metadata assembly in
which the pass saw exactly one record of two fields while
`delimiter_freq = 2`, so `num_fields = 3` but `types.len() = 2`.  (The
end-to-end scenario: the two-line file `a,b,c` / `d,e`; the Viterbi
stage yields delimiter `,` with `delimiter_freq = 2` and the flexible
flag, the header-enabled CSV reader consumes `a,b,c` as its header row
and yields only `["d","e"]`, which the flexible reader accepts.) -/
theorem c3_metadata_lengths_counterexample :
    Sniffer.sniff_assemble P0 (SampleSize.Bytes 16384) 2 ["a", "b", "c"] [["d", "e"]] =
      Except.ok
        { num_fields := 3, fields := [], types := [Ty.Text, Ty.Text],
          avg_record_len := 2, has_header_row := false } ∧
    ([Ty.Text, Ty.Text] : List Ty).length ≠ 3 :=
  ⟨rfl, by decide⟩

/-- C3 as amended: `num_fields = delimiter_freq + 1` always holds, and
`types.len() = num_fields` holds whenever the pass reads at least two
records; when it reads exactly one record, `types.len()` equals that
record's own field count, which need not be `num_fields`. -/
theorem c3_metadata_lengths_amended (P : Parsers) (sz : SampleSize) (df : Nat)
    (header_record r0 : List String) (rest : List (List String))
    (m : Sniffer.Metadata)
    (h : Sniffer.sniff_assemble P sz df header_record (r0 :: rest) = Except.ok m) :
    m.num_fields = df + 1 ∧
    (rest ≠ [] → m.types.length = m.num_fields) ∧
    (rest = [] → m.types.length = r0.length) := by
  cases hp : Sniffer.infer_types_pass P sz (df + 1) header_record (r0 :: rest) with
  | sniffError msg => simp [Sniffer.sniff_assemble, hp] at h
  | outOfBounds => simp [Sniffer.sniff_assemble, hp] at h
  | ok r =>
    simp only [Sniffer.sniff_assemble, hp] at h
    cases h
    cases hl : Sniffer.inferLoop P sz rest (List.replicate (df + 1) TypeGuesses.all) 1
        (Sniffer.count_bytes r0) with
    | none => simp [Sniffer.infer_types_pass, hl] at hp
    | some trip =>
      obtain ⟨row_types, n1, nb1⟩ := trip
      simp only [Sniffer.infer_types_pass, hl] at hp
      by_cases hone : n1 = 1
      · rw [if_pos hone] at hp
        cases hp
        refine ⟨rfl, ?_, ?_⟩
        · intro hne
          exfalso
          cases rest with
          | nil => exact hne rfl
          | cons x xs =>
            have := Sniffer.inferLoop_records_ge_succ P sz x xs _ row_types 1 _ n1 nb1 hl
            omega
        · intro _
          simp [get_best_types, infer_record_types]
      · rw [if_neg hone] at hp
        cases hp
        refine ⟨rfl, ?_, ?_⟩
        · intro _
          have hlen := Sniffer.inferLoop_length P sz rest _ row_types 1 _ n1 nb1 hl
          rw [List.length_replicate] at hlen
          simp [get_best_types, hlen]
        · intro hnil
          subst hnil
          simp only [Sniffer.inferLoop] at hl
          cases hl
          exact absurd rfl hone

/-- C3 amended-claim witness: a two-record sample where both lengths
agree, plus the vacuous single-record implication. -/
theorem c3_metadata_lengths_amended_witness :
    (⟨2, [], [Ty.Boolean, Ty.NULL], 1, false⟩ : Sniffer.Metadata).num_fields = 1 + 1 ∧
    (([["1"]] : List (List String)) ≠ [] →
      (⟨2, [], [Ty.Boolean, Ty.NULL], 1, false⟩ : Sniffer.Metadata).types.length =
        (⟨2, [], [Ty.Boolean, Ty.NULL], 1, false⟩ : Sniffer.Metadata).num_fields) ∧
    (([["1"]] : List (List String)) = [] →
      (⟨2, [], [Ty.Boolean, Ty.NULL], 1, false⟩ : Sniffer.Metadata).types.length =
        (["a"] : List String).length) :=
  c3_metadata_lengths_amended P0 (SampleSize.Bytes 16384) 1 ["h"] ["a"] [["1"]]
    ⟨2, [], [Ty.Boolean, Ty.NULL], 1, false⟩ rfl

/-! ### C10: no out-of-bounds panic when records fit the field count -/

/-- C10: if every record after the first yields at most `field_count`
fields, every index used by the per-field intersection stays inside
`row_types`, so the unchecked `row_types[i]` indexing never panics. -/
theorem c10_no_oob_panic (P : Parsers) (sz : SampleSize) (fc : Nat)
    (header_record r0 : List String) (rest : List (List String))
    (h : ∀ rec ∈ rest, rec.length ≤ fc) :
    Sniffer.infer_types_pass P sz fc header_record (r0 :: rest) ≠
      Sniffer.InferResult.outOfBounds := by
  have hs := Sniffer.inferLoop_isSome P sz rest (List.replicate fc TypeGuesses.all) 1
    (Sniffer.count_bytes r0)
    (by
      intro rec hrec
      rw [List.length_replicate]
      exact h rec hrec)
  cases hl : Sniffer.inferLoop P sz rest (List.replicate fc TypeGuesses.all) 1
      (Sniffer.count_bytes r0) with
  | none => rw [hl] at hs; simp at hs
  | some trip =>
    obtain ⟨row_types, n1, nb1⟩ := trip
    simp only [Sniffer.infer_types_pass, hl]
    by_cases hone : n1 = 1
    · rw [if_pos hone]
      intro hc
      cases hc
    · rw [if_neg hone]
      intro hc
      cases hc

/-- C10 witness: a short record under a field count of 2 panics
nowhere. -/
theorem c10_no_oob_panic_witness :
    Sniffer.infer_types_pass P0 SampleSize.All 2 [] [[], ["x"]] ≠
      Sniffer.InferResult.outOfBounds :=
  c10_no_oob_panic P0 SampleSize.All 2 [] [] [["x"]] (by decide)

/-! ### Lemmas on the chain-selection fold (shared by C2, C6) -/

theorem finalPairOf_eq_some {c : Chain} {s : Nat} {pr : ℚ}
    (h : finalPairOf c = some (s, pr)) :
    (viterbi c).path ≠ [] ∧
    ((viterbi c).path.getLastD (0, ⟨0, none⟩)).1 = s ∧
    ((viterbi c).path.getLastD (0, ⟨0, none⟩)).2.prob = pr := by
  unfold finalPairOf at h
  cases hg : (viterbi c).path.getLast? with
  | none => rw [hg] at h; simp at h
  | some q =>
    rw [hg] at h
    have h2 : some (q.1, q.2.prob) = some (s, pr) := h
    cases h2
    refine ⟨?_, ?_, ?_⟩
    · intro hnil
      rw [hnil] at hg
      simp at hg
    · rw [List.getLastD_eq_getLast?, hg]
      rfl
    · rw [List.getLastD_eq_getLast?, hg]
      rfl

theorem finalPairOf_of_ne_nil {c : Chain} (h : (viterbi c).path ≠ []) :
    finalPairOf c =
      some (((viterbi c).path.getLastD (0, ⟨0, none⟩)).1,
        ((viterbi c).path.getLastD (0, ⟨0, none⟩)).2.prob) := by
  unfold finalPairOf
  cases hg : (viterbi c).path.getLast? with
  | none => exact absurd (List.getLast?_eq_none_iff.mp hg) h
  | some q =>
    rw [List.getLastD_eq_getLast?, hg]
    rfl

theorem lexBetter_irrefl (x : Nat × ℚ) : ¬ lexBetter x x := by
  unfold lexBetter
  intro h
  rcases h with h | ⟨_, h⟩
  · exact Nat.lt_irrefl _ h
  · exact lt_irrefl _ h

theorem lexBetter_trans_not (n a o : Nat × ℚ)
    (h1 : lexBetter n a) (h2 : ¬ lexBetter o a) : ¬ lexBetter o n := by
  unfold lexBetter at h1 h2 ⊢
  push_neg at h2
  intro h3
  obtain ⟨h2a, h2b⟩ := h2
  rcases h1 with h1 | ⟨h1e, h1p⟩
  · rcases h3 with h3 | ⟨h3e, _⟩
    · omega
    · omega
  · rcases h3 with h3 | ⟨h3e, h3p⟩
    · omega
    · have ho : o.1 = a.1 := by omega
      have := h2b ho
      linarith

theorem chainsFoldStep_state_le (acc : Sniffer.ChainsAcc) (p : Nat × Chain) :
    (Sniffer.chainsFoldStep acc p).2.2.1 ≤ acc.2.2.1 := by
  simp only [Sniffer.chainsFoldStep]
  split
  · exact Nat.le_refl _
  · split
    · rename_i hcond
      rcases hcond with h | ⟨h, _⟩
      · exact Nat.le_of_lt h
      · exact Nat.le_of_eq h
    · exact Nat.le_refl _

theorem chainsFold_foldl_state_le (l : List (Nat × Chain)) (acc : Sniffer.ChainsAcc) :
    (l.foldl Sniffer.chainsFoldStep acc).2.2.1 ≤ acc.2.2.1 := by
  induction l generalizing acc with
  | nil => exact Nat.le_refl _
  | cons p ps ih =>
    exact Nat.le_trans (ih (Sniffer.chainsFoldStep acc p)) (chainsFoldStep_state_le acc p)

theorem chainsFoldStep_steady_le_one (acc : Sniffer.ChainsAcc) (p : Nat × Chain)
    (s : Nat) (pr : ℚ) (h : finalPairOf p.2 = some (s, pr)) (hs : s ≤ 1) :
    (Sniffer.chainsFoldStep acc p).2.2.1 ≤ 1 := by
  obtain ⟨hne, hfs, _⟩ := finalPairOf_eq_some h
  simp only [Sniffer.chainsFoldStep]
  rw [if_neg (by simpa [List.isEmpty_iff] using hne)]
  split
  · dsimp only
    rw [hfs]
    exact hs
  · rename_i hcond
    have : ¬ ((viterbi p.2).path.getLastD (0, ⟨0, none⟩)).1 < acc.2.2.1 := by
      intro hlt
      exact hcond (Or.inl hlt)
    rw [hfs] at this
    omega

theorem chainsFoldStep_keeps_unsteady (acc : Sniffer.ChainsAcc) (p : Nat × Chain)
    (hacc : acc.2.2.1 = 2)
    (h : ∀ s pr, finalPairOf p.2 = some (s, pr) → s ≠ 0 ∧ s ≠ 1) :
    (Sniffer.chainsFoldStep acc p).2.2.1 = 2 := by
  simp only [Sniffer.chainsFoldStep]
  split
  · exact hacc
  · rename_i hne
    have hpne : (viterbi p.2).path ≠ [] := by
      intro hnil
      exact hne (by simp [hnil])
    have hpair := finalPairOf_of_ne_nil hpne
    have hns := h _ _ hpair
    split
    · rename_i hcond
      rcases hcond with hlt | ⟨heq, _⟩
      · rw [hacc] at hlt
        omega
      · rw [heq, hacc]
    · exact hacc

theorem chainsFold_foldl_unsteady (l : List (Nat × Chain)) (acc : Sniffer.ChainsAcc)
    (hacc : acc.2.2.1 = 2)
    (h : ∀ p ∈ l, ∀ s pr, finalPairOf p.2 = some (s, pr) → s ≠ 0 ∧ s ≠ 1) :
    (l.foldl Sniffer.chainsFoldStep acc).2.2.1 = 2 := by
  induction l generalizing acc with
  | nil => exact hacc
  | cons p ps ih =>
    refine ih (Sniffer.chainsFoldStep acc p) ?_ ?_
    · exact chainsFoldStep_keeps_unsteady acc p hacc
        (h p (List.mem_cons_self p ps))
    · intro q hq
      exact h q (List.mem_cons_of_mem p hq)

theorem chainsFold_foldl_steady_le_one (l : List (Nat × Chain))
    (acc : Sniffer.ChainsAcc) (p : Nat × Chain) (hp : p ∈ l)
    (s : Nat) (pr : ℚ) (h : finalPairOf p.2 = some (s, pr)) (hs : s ≤ 1) :
    (l.foldl Sniffer.chainsFoldStep acc).2.2.1 ≤ 1 := by
  obtain ⟨l1, l2, rfl⟩ := List.append_of_mem hp
  rw [List.foldl_append]
  simp only [List.foldl_cons]
  exact Nat.le_trans
    (chainsFold_foldl_state_le l2 _)
    (chainsFoldStep_steady_le_one _ p s pr h hs)

theorem chainsFoldStep_no_worse (x : Nat × ℚ) (acc : Sniffer.ChainsAcc)
    (p : Nat × Chain) (h : ¬ lexBetter x (acc.2.2.1, acc.2.2.2.2)) :
    ¬ lexBetter x
      ((Sniffer.chainsFoldStep acc p).2.2.1, (Sniffer.chainsFoldStep acc p).2.2.2.2) := by
  simp only [Sniffer.chainsFoldStep]
  split
  · exact h
  · split
    · rename_i hcond
      refine lexBetter_trans_not _ (acc.2.2.1, acc.2.2.2.2) x ?_ h
      unfold lexBetter
      rcases hcond with hlt | ⟨heq, hgt⟩
      · exact Or.inl hlt
      · exact Or.inr ⟨heq, hgt⟩
    · exact h

theorem chainsFold_foldl_no_worse (l : List (Nat × Chain)) (acc : Sniffer.ChainsAcc)
    (x : Nat × ℚ) (h : ¬ lexBetter x (acc.2.2.1, acc.2.2.2.2)) :
    ¬ lexBetter x
      ((l.foldl Sniffer.chainsFoldStep acc).2.2.1,
        (l.foldl Sniffer.chainsFoldStep acc).2.2.2.2) := by
  induction l generalizing acc with
  | nil => exact h
  | cons p ps ih =>
    exact ih (Sniffer.chainsFoldStep acc p) (chainsFoldStep_no_worse x acc p h)

theorem chainsFoldStep_self_not_better (acc : Sniffer.ChainsAcc) (p : Nat × Chain)
    (sp : Nat × ℚ) (h : finalPairOf p.2 = some sp) :
    ¬ lexBetter sp
      ((Sniffer.chainsFoldStep acc p).2.2.1, (Sniffer.chainsFoldStep acc p).2.2.2.2) := by
  have hsp : finalPairOf p.2 = some (sp.1, sp.2) := by
    cases sp
    exact h
  obtain ⟨hne, hfs, hfp⟩ := finalPairOf_eq_some hsp
  simp only [Sniffer.chainsFoldStep]
  rw [if_neg (by simpa [List.isEmpty_iff] using hne)]
  split
  · have : sp = (((viterbi p.2).path.getLastD (0, ⟨0, none⟩)).1,
        ((viterbi p.2).path.getLastD (0, ⟨0, none⟩)).2.prob) := by
      cases sp
      simp only at hfs hfp
      rw [hfs, hfp]
    rw [this]
    exact lexBetter_irrefl _
  · rename_i hcond
    intro hb
    refine hcond ?_
    unfold lexBetter at hb
    rcases hb with hb | ⟨hbe, hbp⟩
    · exact Or.inl (by rw [hfs]; exact hb)
    · exact Or.inr ⟨by rw [hfs]; exact hbe, by rw [hfp]; exact hbp⟩

theorem chainsFold_foldl_maximal (l : List (Nat × Chain)) (acc : Sniffer.ChainsAcc)
    (p : Nat × Chain) (hp : p ∈ l) (sp : Nat × ℚ) (h : finalPairOf p.2 = some sp) :
    ¬ lexBetter sp
      ((l.foldl Sniffer.chainsFoldStep acc).2.2.1,
        (l.foldl Sniffer.chainsFoldStep acc).2.2.2.2) := by
  induction l generalizing acc with
  | nil => cases hp
  | cons q qs ih =>
    rcases List.mem_cons.mp hp with hq | hq
    · subst hq
      simp only [List.foldl_cons]
      exact chainsFold_foldl_no_worse qs _ sp
        (chainsFoldStep_self_not_better acc p sp h)
    · simp only [List.foldl_cons]
      exact ih _ hq

theorem chainsFold_foldl_achieved (l : List (Nat × Chain)) (acc : Sniffer.ChainsAcc) :
    ((l.foldl Sniffer.chainsFoldStep acc).2.2.1,
        (l.foldl Sniffer.chainsFoldStep acc).2.2.2.2) = (acc.2.2.1, acc.2.2.2.2) ∨
      ∃ p ∈ l, finalPairOf p.2 =
        some ((l.foldl Sniffer.chainsFoldStep acc).2.2.1,
          (l.foldl Sniffer.chainsFoldStep acc).2.2.2.2) := by
  induction l generalizing acc with
  | nil => exact Or.inl rfl
  | cons p ps ih =>
    simp only [List.foldl_cons]
    rcases ih (Sniffer.chainsFoldStep acc p) with heq | ⟨q, hq, hpair⟩
    · rw [heq]
      have hstep : (Sniffer.chainsFoldStep acc p).2.2.1 = acc.2.2.1 ∧
            (Sniffer.chainsFoldStep acc p).2.2.2.2 = acc.2.2.2.2 ∨
          finalPairOf p.2 = some ((Sniffer.chainsFoldStep acc p).2.2.1,
            (Sniffer.chainsFoldStep acc p).2.2.2.2) := by
        simp only [Sniffer.chainsFoldStep]
        split
        · exact Or.inl ⟨rfl, rfl⟩
        · rename_i hne
          have hpne : (viterbi p.2).path ≠ [] := by
            intro hnil
            exact hne (by simp [hnil])
          split
          · exact Or.inr (finalPairOf_of_ne_nil hpne)
          · exact Or.inl ⟨rfl, rfl⟩
      rcases hstep with ⟨h1, h2⟩ | hpair
      · exact Or.inl (by rw [h1, h2])
      · refine Or.inr ⟨p, List.mem_cons_self p ps, ?_⟩
        rw [hpair]
    · exact Or.inr ⟨q, List.mem_cons_of_mem p hq, hpair⟩

theorem mem_enum_snd {c : Chain} {chains : List Chain} (h : c ∈ chains) :
    ∃ p ∈ chains.enum, p.2 = c := by
  have hm : c ∈ chains.enum.map Prod.snd := by
    rw [List.enum_map_snd]
    exact h
  rcases List.mem_map.mp hm with ⟨p, hp, hpc⟩
  exact ⟨p, hp, hpc⟩

theorem enum_snd_mem {p : Nat × Chain} {chains : List Chain} (h : p ∈ chains.enum) :
    p.2 ∈ chains := by
  have hm := List.mem_map_of_mem Prod.snd h
  rwa [List.enum_map_snd] at hm

/-! ### C2: chain selection and the delimiter failure -/

/-- C2: `run_chains` scans the chains in byte order keeping the best
`(final state, final probability)` pair under the lexicographic
"narrower state, then higher probability" order (no chain beats the
kept pair, and the kept pair is either the initial
`(Unsteady, 0)` or attained by some chain); it raises
`SniffingFailed("unable to find valid delimiter")` exactly when no
chain's final path state is `SteadyStrict` or `SteadyFlexible`; and on
success `flexible` is set exactly when the best state is
`SteadyFlexible`. -/
theorem c2_run_chains_selection (prev_delimiter : Option Nat) (chains : List Chain) :
    (Sniffer.run_chains prev_delimiter chains =
        Except.error "unable to find valid delimiter" ↔
      ∀ c ∈ chains, ∀ s pr, finalPairOf c = some (s, pr) →
        s ≠ STATE_STEADYSTRICT ∧ s ≠ STATE_STEADYFLEX) ∧
    (∀ c ∈ chains, ∀ sp, finalPairOf c = some sp →
      ¬ lexBetter sp (bestState chains, bestProb chains)) ∧
    ((bestState chains = STATE_UNSTEADY ∧ bestProb chains = 0) ∨
      ∃ c ∈ chains, finalPairOf c = some (bestState chains, bestProb chains)) ∧
    (∀ r, Sniffer.run_chains prev_delimiter chains = Except.ok r →
      (r.flexible = true ↔ bestState chains = STATE_STEADYFLEX)) := by
  have hbs2 : bestState chains ≤ 2 := by
    have h := chainsFold_foldl_state_le chains.enum (44, 0, STATE_UNSTEADY, [], 0)
    exact h
  refine ⟨⟨?_, ?_⟩, ?_, ?_, ?_⟩
  · intro herr c hc s pr hpair
    by_contra hcon
    rw [not_and_or, not_not, not_not] at hcon
    have hs1 : s ≤ 1 := by
      rcases hcon with h0 | h1
      · rw [h0]; decide
      · rw [h1]; decide
    obtain ⟨p, hp, hpc⟩ := mem_enum_snd hc
    have hle1 : bestState chains ≤ 1 :=
      chainsFold_foldl_steady_le_one chains.enum _ p hp s pr
        (by rw [hpc]; exact hpair) hs1
    have hcond : (Sniffer.chainsFold chains).2.2.1 = STATE_STEADYSTRICT ∨
        (Sniffer.chainsFold chains).2.2.1 = STATE_STEADYFLEX := by
      have hb : bestState chains = 0 ∨ bestState chains = 1 := by omega
      exact hb
    simp only [Sniffer.run_chains] at herr
    rw [if_pos hcond] at herr
    cases herr
  · intro hnone
    have hbs : (Sniffer.chainsFold chains).2.2.1 = 2 :=
      chainsFold_foldl_unsteady chains.enum (44, 0, STATE_UNSTEADY, [], 0) rfl
        (fun p hp s pr hpair => hnone p.2 (enum_snd_mem hp) s pr hpair)
    simp only [Sniffer.run_chains]
    rw [if_neg ?hcond]
    case hcond =>
      rw [hbs]
      decide
  · intro c hc sp hpair
    obtain ⟨p, hp, hpc⟩ := mem_enum_snd hc
    exact chainsFold_foldl_maximal chains.enum _ p hp sp (by rw [hpc]; exact hpair)
  · rcases chainsFold_foldl_achieved chains.enum (44, 0, STATE_UNSTEADY, [], 0) with
      heq | ⟨p, hp, hpair⟩
    · left
      rw [Prod.mk.injEq] at heq
      exact ⟨heq.1, heq.2⟩
    · right
      exact ⟨p.2, enum_snd_mem hp, hpair⟩
  · intro r hok
    simp only [Sniffer.run_chains] at hok
    by_cases hcond : (Sniffer.chainsFold chains).2.2.1 = STATE_STEADYSTRICT ∨
        (Sniffer.chainsFold chains).2.2.1 = STATE_STEADYFLEX
    · rw [if_pos hcond] at hok
      cases hok
      simp only [beq_iff_eq]
      exact Iff.rfl
    · rw [if_neg hcond] at hok
      cases hok

/-- C2 witness: with no chains at all, no final path state is steady
and the failure is raised. -/
theorem c2_run_chains_selection_witness :
    Sniffer.run_chains none ([] : List Chain) =
      Except.error "unable to find valid delimiter" :=
  (c2_run_chains_selection none []).1.mpr
    (fun c hc => absurd hc (List.not_mem_nil c))

/-! ### C6: the preamble-row count from the winning path -/

/-- C6: on success, `num_preamble_rows` is derived from the winning
Viterbi path by skipping the first two path entries, counting the
consecutive entries whose state differs from the chosen best state, and
adding 1 exactly when that count is non-zero. -/
theorem c6_preamble_rows_from_path (prev_delimiter : Option Nat) (chains : List Chain)
    (r : Sniffer.RunChainsOk)
    (h : Sniffer.run_chains prev_delimiter chains = Except.ok r) :
    r.num_preamble_rows =
      (if (((bestPath chains).drop 2).takeWhile
            (fun q => q.1 != bestState chains)).length > 0 then
        (((bestPath chains).drop 2).takeWhile
            (fun q => q.1 != bestState chains)).length + 1
      else
        (((bestPath chains).drop 2).takeWhile
            (fun q => q.1 != bestState chains)).length) := by
  simp only [Sniffer.run_chains] at h
  split at h
  · cases h
    rfl
  · cases h

/-- C6 witness: the single chain `[1, 1]` ends SteadyStrict with an
all-steady path, so zero preamble rows. -/
theorem c6_preamble_rows_from_path_witness :
    (⟨0, 1, false, 0⟩ : Sniffer.RunChainsOk).num_preamble_rows =
      (if (((bestPath [[1, 1]]).drop 2).takeWhile
            (fun q => q.1 != bestState [[1, 1]])).length > 0 then
        (((bestPath [[1, 1]]).drop 2).takeWhile
            (fun q => q.1 != bestState [[1, 1]])).length + 1
      else
        (((bestPath [[1, 1]]).drop 2).takeWhile
            (fun q => q.1 != bestState [[1, 1]])).length) :=
  c6_preamble_rows_from_path none [[1, 1]] ⟨0, 1, false, 0⟩
    (by with_unfolding_all rfl)

end QsvSniffer
